import Mathlib

/-!
Shallow embedding of the deduplicating relay pipeline in src/rfid/rfid.py
(Python 2): the identifier decoder inside post, the duplicate filter over
dedup_cache, and the RelayWebsocket outbound link.

Modelling conventions:
* A character is represented by its code point as a Nat; a Python string is
  a List Nat of code points.
* Timestamps (time.time values) are rationals.
* The network is an environment: each send attempt receives two oracle
  booleans saying whether websocket.create_connection and ws.send would
  succeed if attempted; an uncaught Python exception is Option.none.
-/

namespace Rfid

/-- A tag identifier: the decoded string, one entry per character code. -/
abbrev TagId := List Nat

/-- DEDUP_THRESHOLD = 5.0 (rfid.py line 24). -/
def DEDUP_THRESHOLD : ℚ := 5

/-! ### Identifier decoder (rfid.py lines 67-70)

The decoder splits the hex string into chunks of two characters
(`epc[i:i+2] for i in range(0, len(epc), 2)`, the last chunk possibly a
single character), runs each through the Python 2 builtins int(ch, 16) and
chr, and joins the characters. -/

/-- The hexadecimal digits accepted by int(ch, 16): 0-9, a-f, A-F. -/
def isHexDigit (n : Nat) : Bool :=
  (48 ≤ n && n ≤ 57) || (97 ≤ n && n ≤ 102) || (65 ≤ n && n ≤ 70)

/-- Numeric value of one hexadecimal digit. -/
def hexVal (n : Nat) : Nat :=
  if 48 ≤ n && n ≤ 57 then n - 48
  else if 97 ≤ n && n ≤ 102 then n - 87
  else n - 55

/-- Whitespace stripped by the Python int builtin: space, TAB, LF, VT, FF, CR. -/
def isPySpace (n : Nat) : Bool := n == 32 || (9 ≤ n && n ≤ 13)

/-- Base-16 value of a nonempty run of hexadecimal digits; none when empty or
when a character is not a hex digit (int raises ValueError). -/
def hexDigitsVal (ds : List Nat) : Option Nat :=
  if !ds.isEmpty && ds.all isHexDigit then
    some (ds.foldl (fun a d => 16 * a + hexVal d) 0)
  else none

/-- The sign-and-digits part of the Python 2 int(s, 16) grammar: an optional
leading plus (43) or minus (45) sign followed by hex digits. -/
def pyIntSigned (s1 : List Nat) : Option Int :=
  match s1 with
  | [] => none
  | c :: ds =>
    if c = 43 then (hexDigitsVal ds).map fun v => (v : Int)
    else if c = 45 then (hexDigitsVal ds).map fun v => -(v : Int)
    else (hexDigitsVal (c :: ds)).map fun v => (v : Int)

/-- The Python 2 builtin int(s, 16): optional surrounding whitespace, optional
sign, then a nonempty run of hexadecimal digits; none models ValueError. -/
def pyInt16 (s : List Nat) : Option Int :=
  pyIntSigned (((s.dropWhile isPySpace).reverse.dropWhile isPySpace).reverse)

/-- The Python 2 builtin chr: defined for 0 <= i < 256, ValueError otherwise. -/
def pyChr (i : Int) : Option Nat :=
  if 0 ≤ i ∧ i < 256 then some i.toNat else none

/-- One chunk of the decoder: chr(int(ch, 16)). -/
def pyByte (ch : List Nat) : Option Nat := (pyInt16 ch).bind pyChr

/-- epc[i:i+2] for i in range(0, len(epc), 2): successive pairs, with a
dangling final character forming a singleton chunk. -/
def chunk2 : List Nat → List (List Nat)
  | [] => []
  | [c] => [[c]]
  | c1 :: c2 :: rest => [c1, c2] :: chunk2 rest

/-- The decoder body of post (rfid.py lines 68-70): every chunk through
chr(int(ch, 16)), results joined in order; none models the uncaught
exception aborting the whole decode. -/
def decode (epc : List Nat) : Option TagId :=
  (chunk2 epc).mapM pyByte

/-! ### Re-encoding, used to state the round-trip property -/

/-- Uppercase hexadecimal digit character for a value below 16. -/
def hexDigitChar (n : Nat) : Nat := if n < 10 then 48 + n else 55 + n

/-- Two-digit uppercase hexadecimal rendering of one byte. -/
def encodeByte (b : Nat) : List Nat := [hexDigitChar (b / 16), hexDigitChar (b % 16)]

/-- Hexadecimal rendering of a byte string. -/
def encodeHex (bs : List Nat) : List Nat := (bs.map encodeByte).flatten

/-- Case folding of the hex letters a-f to A-F, for the case-insensitive
comparison in the round-trip property. -/
def toUpperHexChar (n : Nat) : Nat := if 97 ≤ n && n ≤ 102 then n - 32 else n

/-- A character no chunk of int(ch, 16) can accept: not a hex digit, not a
sign, not whitespace. -/
def hardBad (n : Nat) : Bool := !(isHexDigit n || isPySpace n || n == 43 || n == 45)

/-! ### Outbound link: RelayWebsocket (rfid.py lines 26-63) -/

/-- State of a RelayWebsocket: the pending tag buffer and the good flag.
The connection handle self.ws is modelled by the oracles fed to send. -/
structure RelayWebsocket where
  tag_buffer : List TagId
  good : Bool
deriving DecidableEq

/-- tags = ','.join(self.tag_buffer) (rfid.py line 44); 44 is the comma. -/
def joinTags (bufs : List TagId) : TagId := List.intercalate [44] bufs

/-- send(self, tag) (rfid.py lines 33-53). connectOk says whether
websocket.create_connection would succeed if attempted, writeOk whether
self.ws.send would succeed if attempted. Returns the new state and the
message written to the wire, if any. The tag is appended first,
unconditionally; a connect is attempted only when not good; when good
(already, or after the successful connect) the joined buffer is written:
cleared on success, retained with good := false on failure. -/
def send (st : RelayWebsocket) (tag : TagId) (connectOk writeOk : Bool) :
    RelayWebsocket × Option TagId :=
  let buf := st.tag_buffer ++ [tag]
  let good1 := st.good || connectOk
  if good1 then
    if writeOk then (⟨[], true⟩, some (joinTags buf))
    else (⟨buf, false⟩, none)
  else (⟨buf, false⟩, none)

/-- close(self) (rfid.py lines 55-59): self.ws.close() is requested exactly
when good, then good := false. Returns the new state and whether the remote
close was requested. -/
def close (st : RelayWebsocket) : RelayWebsocket × Bool :=
  (⟨st.tag_buffer, false⟩, st.good)

/-! ### Duplicate filter (rfid.py lines 71-77) -/

/-- dedup_cache modelled as a total map with the 0.0 default of
dedup_cache.get(tag, 0.0) built in; emptyCache is the initial {}. -/
def emptyCache : TagId → ℚ := fun _ => 0

/-- One pass of the duplicate filter in post: forward iff
now - dedup_cache.get(tag, 0.0) > DEDUP_THRESHOLD, recording now against the
tag exactly on the forwarding branch. Returns the updated cache and the
forwarding decision. -/
def dedupStep (cache : TagId → ℚ) (tag : TagId) (now : ℚ) :
    (TagId → ℚ) × Bool :=
  if now - cache tag > DEDUP_THRESHOLD then
    (fun t => if t = tag then now else cache t, true)
  else (cache, false)

/-- Forwarding decisions of the filter over successive reads of one tag. -/
def runDedup (cache : TagId → ℚ) (tag : TagId) : List ℚ → List Bool
  | [] => []
  | t :: ts =>
    (dedupStep cache tag t).2 :: runDedup (dedupStep cache tag t).1 tag ts

/-- The reads the filter forwards, processing a trace of (tag, time) events
in order. -/
def processTrace (cache : TagId → ℚ) : List (TagId × ℚ) → List (TagId × ℚ)
  | [] => []
  | e :: rest =>
    if (dedupStep cache e.1 e.2).2 then
      e :: processTrace (dedupStep cache e.1 e.2).1 rest
    else processTrace (dedupStep cache e.1 e.2).1 rest

/-- Times at which a given tag is forwarded along a trace. -/
def forwardedTimes (cache : TagId → ℚ) (tr : List (TagId × ℚ)) (tag : TagId) :
    List ℚ :=
  (processTrace cache tr).filterMap fun e => if e.1 = tag then some e.2 else none

/-- Forwarded times of a run of reads of a single tag, as a plain recursion:
keep a time exactly when it exceeds the last kept time by more than the
threshold. -/
def greedy (last : ℚ) : List ℚ → List ℚ
  | [] => []
  | t :: ts => if t - last > DEDUP_THRESHOLD then t :: greedy t ts else greedy last ts

/-! ### The post pipeline with the global ws (rfid.py lines 66-77, 22) -/

/-- The globals post reads and writes: dedup_cache and ws (None until the
main block assigns it, rfid.py lines 109-110). -/
structure PipelineState where
  dedup_cache : TagId → ℚ
  ws : Option RelayWebsocket

/-- post after decoding, at time now: on the forwarding branch the cache is
updated first, then the tag goes to ws.send only if ws is not None; on the
suppressed branch nothing changes. -/
def post (st : PipelineState) (tag : TagId) (now : ℚ) (connectOk writeOk : Bool) :
    PipelineState × Option TagId :=
  if now - st.dedup_cache tag > DEDUP_THRESHOLD then
    let cache2 : TagId → ℚ := fun t => if t = tag then now else st.dedup_cache t
    match st.ws with
    | none => (⟨cache2, none⟩, none)
    | some l => ((⟨cache2, some (send l tag connectOk writeOk).1⟩ : PipelineState),
                 (send l tag connectOk writeOk).2)
  else (st, none)

/-- 13 reads of one tag at 1-second intervals spanning 12 seconds, starting
at time s. -/
def trace13 (tag : TagId) (s : ℚ) : List (TagId × ℚ) :=
  [(tag, s), (tag, s + 1), (tag, s + 2), (tag, s + 3), (tag, s + 4),
   (tag, s + 5), (tag, s + 6), (tag, s + 7), (tag, s + 8), (tag, s + 9),
   (tag, s + 10), (tag, s + 11), (tag, s + 12)]

/-! ## Helper lemmas -/

theorem dedupStep_pos {cache : TagId → ℚ} {tag : TagId} {now : ℚ}
    (h : now - cache tag > DEDUP_THRESHOLD) :
    dedupStep cache tag now = (fun t => if t = tag then now else cache t, true) :=
  if_pos h

theorem dedupStep_neg {cache : TagId → ℚ} {tag : TagId} {now : ℚ}
    (h : ¬ now - cache tag > DEDUP_THRESHOLD) :
    dedupStep cache tag now = (cache, false) :=
  if_neg h

theorem post_suppressed {st : PipelineState} {tag : TagId} {now : ℚ}
    (c w : Bool) (h : ¬ now - st.dedup_cache tag > DEDUP_THRESHOLD) :
    post st tag now c w = (st, none) := by
  simp only [post]
  rw [if_neg h]

theorem DEDUP_THRESHOLD_pos : (0 : ℚ) < DEDUP_THRESHOLD := by
  norm_num [DEDUP_THRESHOLD]

theorem forwardedTimes_nil (cache : TagId → ℚ) (tag : TagId) :
    forwardedTimes cache [] tag = [] := rfl

theorem forwardedTimes_cons (cache : TagId → ℚ) (e : TagId × ℚ)
    (rest : List (TagId × ℚ)) (tag : TagId) :
    forwardedTimes cache (e :: rest) tag =
      if (dedupStep cache e.1 e.2).2 then
        (if e.1 = tag then
          e.2 :: forwardedTimes (dedupStep cache e.1 e.2).1 rest tag
         else forwardedTimes (dedupStep cache e.1 e.2).1 rest tag)
      else forwardedTimes (dedupStep cache e.1 e.2).1 rest tag := by
  simp only [forwardedTimes, processTrace]
  by_cases h : (dedupStep cache e.1 e.2).2
  · rw [if_pos h, if_pos h, List.filterMap_cons]
    by_cases h2 : e.1 = tag
    · rw [if_pos h2, if_pos h2]
    · rw [if_neg h2, if_neg h2]
  · rw [if_neg h, if_neg h]

/-- Every time the filter forwards a tag along a trace exceeds the entry the
cache initially held for that tag by more than the threshold. -/
theorem forwarded_lb (tr : List (TagId × ℚ)) :
    ∀ (cache : TagId → ℚ) (tag : TagId) (t : ℚ),
      t ∈ forwardedTimes cache tr tag → t - cache tag > DEDUP_THRESHOLD := by
  induction tr with
  | nil =>
    intro cache tag t ht
    rw [forwardedTimes_nil] at ht
    simp at ht
  | cons e rest ih =>
    intro cache tag t ht
    rw [forwardedTimes_cons] at ht
    by_cases hc : e.2 - cache e.1 > DEDUP_THRESHOLD
    · rw [dedupStep_pos hc] at ht
      simp only [if_true] at ht
      by_cases h2 : e.1 = tag
      · rw [if_pos h2] at ht
        rcases List.mem_cons.mp ht with h3 | h3
        · subst h3
          rw [← h2]
          exact hc
        · have h4 := ih _ tag t h3
          have h5 : (if tag = e.1 then e.2 else cache tag) = e.2 := by
            rw [if_pos h2.symm]
          rw [h5] at h4
          rw [h2] at hc
          have := DEDUP_THRESHOLD_pos
          linarith
      · rw [if_neg h2] at ht
        have h4 := ih _ tag t ht
        have h5 : (if tag = e.1 then e.2 else cache tag) = cache tag := by
          rw [if_neg (fun h => h2 h.symm)]
        rwa [h5] at h4
    · rw [dedupStep_neg hc] at ht
      simp only [if_neg (Bool.false_ne_true)] at ht
      exact ih cache tag t ht

/-- Along any trace, the times at which one tag is forwarded are pairwise
more than the threshold apart. -/
theorem forwarded_pairwise (tr : List (TagId × ℚ)) :
    ∀ (cache : TagId → ℚ) (tag : TagId),
      (forwardedTimes cache tr tag).Pairwise
        (fun a b => b - a > DEDUP_THRESHOLD) := by
  induction tr with
  | nil =>
    intro cache tag
    rw [forwardedTimes_nil]
    exact List.Pairwise.nil
  | cons e rest ih =>
    intro cache tag
    rw [forwardedTimes_cons]
    by_cases hc : e.2 - cache e.1 > DEDUP_THRESHOLD
    · rw [dedupStep_pos hc]
      simp only [if_true]
      by_cases h2 : e.1 = tag
      · rw [if_pos h2]
        refine List.Pairwise.cons ?_ (ih _ tag)
        intro b hb
        have h4 := forwarded_lb rest _ tag b hb
        have h5 : (if tag = e.1 then e.2 else cache tag) = e.2 := by
          rw [if_pos h2.symm]
        rwa [h5] at h4
      · rw [if_neg h2]
        exact ih _ tag
    · rw [dedupStep_neg hc]
      simp only [if_neg (Bool.false_ne_true)]
      exact ih cache tag

/-- A list of rationals pairwise more than the threshold apart, all inside a
closed window of length the threshold, has at most one element. -/
theorem pairwise_gap_window (l : List ℚ) (s : ℚ)
    (hp : l.Pairwise (fun a b => b - a > DEDUP_THRESHOLD))
    (hmem : ∀ t ∈ l, s ≤ t ∧ t ≤ s + DEDUP_THRESHOLD) : l.length ≤ 1 := by
  match l, hp with
  | [], _ => simp
  | [a], _ => simp
  | a :: b :: l2, hp =>
    exfalso
    have hab : b - a > DEDUP_THRESHOLD :=
      (List.pairwise_cons.mp hp).1 b (by simp)
    have ha := hmem a (by simp)
    have hb := hmem b (by simp)
    linarith [ha.1, ha.2, hb.1, hb.2]

theorem decode_nil : decode [] = some [] := rfl

theorem decode_single (c : Nat) :
    decode [c] = (pyByte [c]).map fun b => [b] := by
  simp only [decode, chunk2, List.mapM_cons, List.mapM_nil]
  cases pyByte [c] <;> rfl

theorem decode_cons2 (c1 c2 : Nat) (rest : List Nat) :
    decode (c1 :: c2 :: rest) =
      (pyByte [c1, c2]).bind fun b => (decode rest).map fun t => b :: t := by
  simp only [decode, chunk2, List.mapM_cons]
  cases pyByte [c1, c2] with
  | none => rfl
  | some b =>
    cases (chunk2 rest).mapM pyByte <;> rfl

theorem hexDigit_ranges {n : Nat} (h : isHexDigit n = true) :
    (48 ≤ n ∧ n ≤ 57) ∨ (97 ≤ n ∧ n ≤ 102) ∨ (65 ≤ n ∧ n ≤ 70) := by
  simpa [isHexDigit, or_assoc] using h

theorem hexDigit_not_sign_space {n : Nat} (h : isHexDigit n = true) :
    isPySpace n = false ∧ n ≠ 43 ∧ n ≠ 45 := by
  have h2 := hexDigit_ranges h
  refine ⟨?_, ?_, ?_⟩
  · simp only [isPySpace, Bool.or_eq_false_iff, beq_eq_false_iff_ne, ne_eq,
      Bool.and_eq_false_iff, decide_eq_false_iff_not]
    omega
  · omega
  · omega

theorem hexVal_lt {n : Nat} (h : isHexDigit n = true) : hexVal n < 16 := by
  have h2 := hexDigit_ranges h
  simp only [hexVal]
  split_ifs with ha hb <;>
    simp only [Bool.and_eq_true, decide_eq_true_eq] at * <;> omega

theorem hexDigitChar_hexVal {n : Nat} (h : isHexDigit n = true) :
    hexDigitChar (hexVal n) = toUpperHexChar n := by
  have h2 := hexDigit_ranges h
  simp only [hexVal, hexDigitChar, toUpperHexChar]
  split_ifs <;>
    simp only [Bool.and_eq_true, decide_eq_true_eq, Bool.and_eq_false_iff,
      decide_eq_false_iff_not] at * <;> omega

theorem hexDigitsVal_pair {c1 c2 : Nat} (h1 : isHexDigit c1 = true)
    (h2 : isHexDigit c2 = true) :
    hexDigitsVal [c1, c2] = some (16 * hexVal c1 + hexVal c2) := by
  simp [hexDigitsVal, h1, h2]

theorem pyInt16_pair {c1 c2 : Nat} (h1 : isHexDigit c1 = true)
    (h2 : isHexDigit c2 = true) :
    pyInt16 [c1, c2] = some ((16 * hexVal c1 + hexVal c2 : Nat) : Int) := by
  obtain ⟨hs1, h431, h451⟩ := hexDigit_not_sign_space h1
  obtain ⟨hs2, _, _⟩ := hexDigit_not_sign_space h2
  simp only [pyInt16, List.dropWhile_cons, hs1, Bool.false_eq_true, if_false,
    List.reverse_cons, List.reverse_nil, List.nil_append, List.cons_append,
    hs2, List.reverse_append]
  simp [pyIntSigned, if_neg h431, if_neg h451, hexDigitsVal_pair h1 h2]

theorem pyByte_pair {c1 c2 : Nat} (h1 : isHexDigit c1 = true)
    (h2 : isHexDigit c2 = true) :
    pyByte [c1, c2] = some (16 * hexVal c1 + hexVal c2) := by
  have v1 := hexVal_lt h1
  have v2 := hexVal_lt h2
  simp only [pyByte, pyInt16_pair h1 h2, Option.some_bind, pyChr]
  rw [if_pos]
  · simp only [Option.some_inj]
    omega
  · constructor
    · positivity
    · have h3 : 16 * hexVal c1 + hexVal c2 < 256 := by omega
      exact_mod_cast h3

theorem pyInt16_single {d : Nat} (hd : isHexDigit d = true) :
    pyInt16 [d] = some ((hexVal d : Nat) : Int) := by
  obtain ⟨hs, h43, h45⟩ := hexDigit_not_sign_space hd
  simp only [pyInt16, List.dropWhile_cons, hs, Bool.false_eq_true, if_false,
    List.reverse_cons, List.reverse_nil, List.nil_append]
  simp only [pyIntSigned, if_neg h43, if_neg h45]
  simp [hexDigitsVal, hd]

theorem pyByte_single {d : Nat} (hd : isHexDigit d = true) :
    pyByte [d] = some (hexVal d) := by
  have v := hexVal_lt hd
  simp only [pyByte, pyInt16_single hd, Option.some_bind, pyChr]
  rw [if_pos]
  · simp
  · constructor
    · positivity
    · exact_mod_cast Nat.lt_of_lt_of_le v (by norm_num)

/-- Round-trip of the decoder on even-length hexadecimal input, shared by
the round-trip and malformed-input claims. -/
theorem decode_hex_even (H : List Nat) (heven : H.length % 2 = 0)
    (hhex : H.all isHexDigit = true) :
    ∃ t, decode H = some t ∧ t.length = H.length / 2 ∧
      encodeHex t = H.map toUpperHexChar := by
  induction H using chunk2.induct with
  | case1 =>
    exact ⟨[], rfl, rfl, rfl⟩
  | case2 c =>
    simp at heven
  | case3 c1 c2 rest ih =>
    simp only [List.all_cons, Bool.and_eq_true] at hhex
    obtain ⟨h1, h2, hrest⟩ := hhex
    simp only [List.length_cons] at heven
    obtain ⟨t, ht, hlen, henc⟩ := ih (by omega) hrest
    refine ⟨(16 * hexVal c1 + hexVal c2) :: t, ?_, ?_, ?_⟩
    · rw [decode_cons2, pyByte_pair h1 h2, Option.some_bind, ht]
      rfl
    · simp only [List.length_cons, hlen]
      omega
    · have v1 := hexVal_lt h1
      have v2 := hexVal_lt h2
      simp only [encodeHex, List.map_cons, List.flatten_cons] at henc ⊢
      rw [henc]
      simp only [encodeByte]
      have hd : (16 * hexVal c1 + hexVal c2) / 16 = hexVal c1 := by omega
      have hm : (16 * hexVal c1 + hexVal c2) % 16 = hexVal c2 := by omega
      rw [hd, hm, hexDigitChar_hexVal h1, hexDigitChar_hexVal h2]
      rfl

/-! ## Claim theorems -/

/-- C8: close never raises (it is a total function) and is idempotent:
from any state, including a link never connected, one close and then a
second close both leave good = false, the second close gives the same
state as the first, and the remote close (self.ws.close) is requested
exactly when the link was connected at the call. -/
theorem close_idempotent (st : RelayWebsocket) :
    (close st).1.good = false ∧
    (close (close st).1).1.good = false ∧
    (close (close st).1).1 = (close st).1 ∧
    (close st).2 = st.good ∧
    (close (close st).1).2 = false := by
  simp [close]

/-- C10: the wire encoding of the pending buffer is not injective: hex
input 412C42 decodes to a TagId containing the comma byte 44, and the two
distinct buffers, one holding that single tag and one holding the two tags
A and B, join to the identical outbound message. -/
theorem join_not_injective :
    decode [52, 49, 50, 67, 52, 50] = some [65, 44, 66] ∧
    ([[65, 44, 66]] : List TagId) ≠ [[65], [66]] ∧
    joinTags [[65, 44, 66]] = joinTags [[65], [66]] := by
  refine ⟨by decide, by decide, by decide⟩

/-- C2: a write failure on an established connection transitions the link
to disconnected, returns nothing to the wire, and retains the entire
buffer with the new id appended (no partial drain); the next send whose
connect and write succeed transmits the accumulated backlog plus the new
id joined in FIFO arrival order. Concretely, from a connected empty-buffer
link, send of X with the write failing leaves buffer [X], and a subsequent
successful send of Y writes the single message X,Y. -/
theorem send_write_failure_retains_backlog
    (st : RelayWebsocket) (tag tag2 : TagId) (c c2 : Bool)
    (hgood : st.good = true) :
    (send st tag c false).1.good = false ∧
    (send st tag c false).2 = none ∧
    (send st tag c false).1.tag_buffer = st.tag_buffer ++ [tag] ∧
    (send (send st tag c false).1 tag2 true true).2 =
      some (joinTags (st.tag_buffer ++ [tag] ++ [tag2])) ∧
    (send ⟨[], true⟩ [88] c2 false).1.tag_buffer = [[88]] ∧
    (send (send ⟨[], true⟩ [88] c2 false).1 [89] true true).2 = some [88, 44, 89] := by
  simp [send, hgood, joinTags, List.intercalate]

/-- Witness for C2 at a concrete connected state. -/
theorem send_write_failure_retains_backlog_witness :
    (RelayWebsocket.mk [] true).good = true ∧
    ((send ⟨[], true⟩ [88] false false).1.good = false ∧
     (send ⟨[], true⟩ [88] false false).2 = none ∧
     (send ⟨[], true⟩ [88] false false).1.tag_buffer = [] ++ [[88]] ∧
     (send (send ⟨[], true⟩ [88] false false).1 [89] true true).2 =
       some (joinTags ([] ++ [[88]] ++ [[89]])) ∧
     (send ⟨[], true⟩ [88] false false).1.tag_buffer = [[88]] ∧
     (send (send ⟨[], true⟩ [88] false false).1 [89] true true).2 = some [88, 44, 89]) :=
  ⟨rfl, send_write_failure_retains_backlog ⟨[], true⟩ [88] [89] false false rfl⟩

/-- C3: send appends the id to the buffer unconditionally; when the link
is down and the connect attempt fails, no exception escapes (send is a
total function), the state stays disconnected and the buffer keeps the id;
a later send whose connect and write both succeed transmits all buffered
ids as one comma-joined message and clears the buffer. Concretely, from a
disconnected empty link, send of A with connect failing leaves buffer [A],
and the next send of B with connect and write succeeding writes the single
message A,B and empties the buffer. -/
theorem send_buffers_and_retries
    (st : RelayWebsocket) (tag tag2 : TagId) (w w2 : Bool)
    (hdown : st.good = false) :
    (send st tag false w).1.good = false ∧
    (send st tag false w).2 = none ∧
    (send st tag false w).1.tag_buffer = st.tag_buffer ++ [tag] ∧
    (send (send st tag false w).1 tag2 true true).2 =
      some (joinTags (st.tag_buffer ++ [tag] ++ [tag2])) ∧
    (send (send st tag false w).1 tag2 true true).1.tag_buffer = [] ∧
    (send ⟨[], false⟩ [65] false w2).1.tag_buffer = [[65]] ∧
    (send (send ⟨[], false⟩ [65] false w2).1 [66] true true).2 = some [65, 44, 66] ∧
    (send (send ⟨[], false⟩ [65] false w2).1 [66] true true).1.tag_buffer = [] := by
  simp [send, hdown, joinTags, List.intercalate]

/-- Witness for C3 at a concrete disconnected state. -/
theorem send_buffers_and_retries_witness :
    (RelayWebsocket.mk [] false).good = false ∧
    ((send ⟨[], false⟩ [65] false false).1.good = false ∧
     (send ⟨[], false⟩ [65] false false).2 = none ∧
     (send ⟨[], false⟩ [65] false false).1.tag_buffer = [] ++ [[65]] ∧
     (send (send ⟨[], false⟩ [65] false false).1 [66] true true).2 =
       some (joinTags ([] ++ [[65]] ++ [[66]])) ∧
     (send (send ⟨[], false⟩ [65] false false).1 [66] true true).1.tag_buffer = [] ∧
     (send ⟨[], false⟩ [65] false false).1.tag_buffer = [[65]] ∧
     (send (send ⟨[], false⟩ [65] false false).1 [66] true true).2 = some [65, 44, 66] ∧
     (send (send ⟨[], false⟩ [65] false false).1 [66] true true).1.tag_buffer = []) :=
  ⟨rfl, send_buffers_and_retries ⟨[], false⟩ [65] [66] false false rfl⟩

/-- C1 counterexample: at t=0 with the fresh cache the filter computes
0 - 0 > 5.0, which is false, so the claimed result list starting with true
is wrong at its first element: the code returns
false, false, true, false, false, true on the claimed inputs. -/
theorem dedup_trace_counterexample :
    runDedup emptyCache [48, 48, 48, 49] [0, 3, 6, 61/10, 109/10, 111/10]
      ≠ [true, false, true, false, false, true] := by
  norm_num [runDedup, dedupStep, emptyCache, DEDUP_THRESHOLD]

/-- C1 amended: the filter forwards a tag at time now iff
now - last_seen(tag) > DEDUP_THRESHOLD with last_seen defaulting to 0, so a
first observation forwards exactly when now > DEDUP_THRESHOLD (always true
for wall-clock times, false at t=0 itself); now is recorded against the tag
on the forwarding branch and the cache is untouched on the suppressed
branch; and for id 0001 the calls at t=0, 3, 6, 6.1, 10.9, 11.1 return
false, false, true, false, false, true. -/
theorem dedup_policy_amended (cache : TagId → ℚ) (tag : TagId) (now : ℚ) :
    ((dedupStep cache tag now).2 = true ↔ now - cache tag > DEDUP_THRESHOLD) ∧
    ((dedupStep emptyCache tag now).2 = true ↔ now > DEDUP_THRESHOLD) ∧
    ((dedupStep cache tag now).2 = true → (dedupStep cache tag now).1 tag = now) ∧
    ((dedupStep cache tag now).2 = false → (dedupStep cache tag now).1 = cache) ∧
    runDedup emptyCache [48, 48, 48, 49] [0, 3, 6, 61/10, 109/10, 111/10]
      = [false, false, true, false, false, true] := by
  refine ⟨?_, ?_, ?_, ?_, ?_⟩
  · by_cases h : now - cache tag > DEDUP_THRESHOLD
    · simp [dedupStep_pos h, h]
    · simp [dedupStep_neg h, h]
  · by_cases h : now - emptyCache tag > DEDUP_THRESHOLD
    · simp only [dedupStep_pos h]
      simpa [emptyCache] using h
    · simp only [dedupStep_neg h]
      simp only [emptyCache] at h
      simpa using h
  · intro h2
    by_cases h : now - cache tag > DEDUP_THRESHOLD
    · simp [dedupStep_pos h]
    · rw [dedupStep_neg h] at h2
      simp at h2
  · intro h2
    by_cases h : now - cache tag > DEDUP_THRESHOLD
    · rw [dedupStep_pos h] at h2
      simp at h2
    · rw [dedupStep_neg h]
  · norm_num [runDedup, dedupStep, emptyCache, DEDUP_THRESHOLD]

/-- Witness for C1 amended at cache = emptyCache, tag = 0001, now = 6. -/
theorem dedup_policy_amended_witness :
    (dedupStep emptyCache [48, 48, 48, 49] 6).2 = true ∧
    (dedupStep emptyCache [48, 48, 48, 49] 6).1 [48, 48, 48, 49] = 6 ∧
    runDedup emptyCache [48, 48, 48, 49] [0, 3, 6, 61/10, 109/10, 111/10]
      = [false, false, true, false, false, true] := by
  have h := dedup_policy_amended emptyCache [48, 48, 48, 49] 6
  have hf : (dedupStep emptyCache [48, 48, 48, 49] 6).2 = true :=
    h.2.1.mpr (by norm_num [DEDUP_THRESHOLD])
  exact ⟨hf, h.2.2.1 hf, h.2.2.2.2⟩

/-- C9: when a read passes the duplicate filter while the global ws is
still None, post records the timestamp against the tag anyway and sends
nothing, and a second read of the same tag inside the threshold window is
then suppressed, leaving the whole state unchanged, exactly as if the
first read had been forwarded. -/
theorem post_records_without_link
    (cache : TagId → ℚ) (tag : TagId) (now now2 : ℚ) (c w c2 w2 : Bool)
    (hfwd : now - cache tag > DEDUP_THRESHOLD)
    (hwin : now2 - now ≤ DEDUP_THRESHOLD) :
    (post ⟨cache, none⟩ tag now c w).2 = none ∧
    (post ⟨cache, none⟩ tag now c w).1.ws = none ∧
    (post ⟨cache, none⟩ tag now c w).1.dedup_cache tag = now ∧
    (post (post ⟨cache, none⟩ tag now c w).1 tag now2 c2 w2).2 = none ∧
    (post (post ⟨cache, none⟩ tag now c w).1 tag now2 c2 w2).1 =
      (post ⟨cache, none⟩ tag now c w).1 := by
  have h1 : post ⟨cache, none⟩ tag now c w =
      (⟨fun t => if t = tag then now else cache t, none⟩, none) := by
    simp [post, hfwd]
  have hcache : (post ⟨cache, none⟩ tag now c w).1.dedup_cache tag = now := by
    rw [h1]
    simp
  have h2 : ¬ now2 - (post ⟨cache, none⟩ tag now c w).1.dedup_cache tag
      > DEDUP_THRESHOLD := by
    rw [hcache]
    exact not_lt.mpr hwin
  refine ⟨by rw [h1], by rw [h1], hcache, ?_, ?_⟩
  · rw [post_suppressed c2 w2 h2]
  · rw [post_suppressed c2 w2 h2]

/-- Witness for C9 at cache = emptyCache, tag = 0001, now = 6, now2 = 8. -/
theorem post_records_without_link_witness :
    ((6:ℚ) - emptyCache [48, 48, 48, 49] > DEDUP_THRESHOLD) ∧
    ((8:ℚ) - 6 ≤ DEDUP_THRESHOLD) ∧
    ((post ⟨emptyCache, none⟩ [48, 48, 48, 49] 6 true true).2 = none ∧
     (post ⟨emptyCache, none⟩ [48, 48, 48, 49] 6 true true).1.ws = none ∧
     (post ⟨emptyCache, none⟩ [48, 48, 48, 49] 6 true true).1.dedup_cache
        [48, 48, 48, 49] = 6 ∧
     (post (post ⟨emptyCache, none⟩ [48, 48, 48, 49] 6 true true).1
        [48, 48, 48, 49] 8 true true).2 = none ∧
     (post (post ⟨emptyCache, none⟩ [48, 48, 48, 49] 6 true true).1
        [48, 48, 48, 49] 8 true true).1 =
       (post ⟨emptyCache, none⟩ [48, 48, 48, 49] 6 true true).1) :=
  ⟨by norm_num [emptyCache, DEDUP_THRESHOLD],
   by norm_num [DEDUP_THRESHOLD],
   post_records_without_link emptyCache [48, 48, 48, 49] 6 8 true true true true
     (by norm_num [emptyCache, DEDUP_THRESHOLD])
     (by norm_num [DEDUP_THRESHOLD])⟩

/-- C4: over any sequence of reads processed by the pipeline, each distinct
tag passes the filter at most once inside any closed window of
DEDUP_THRESHOLD seconds, no matter how many reads of that tag fall in the
window. -/
theorem dedup_window_invariant (tr : List (TagId × ℚ)) (tag : TagId) (s : ℚ) :
    ((forwardedTimes emptyCache tr tag).filter
        (fun t => decide (s ≤ t) && decide (t ≤ s + DEDUP_THRESHOLD))).length ≤ 1 := by
  refine pairwise_gap_window _ s
    ((forwarded_pairwise tr emptyCache tag).filter _) ?_
  intro t ht
  have h2 := List.of_mem_filter ht
  simp only [Bool.and_eq_true, decide_eq_true_eq] at h2
  exact h2

theorem greedy_pos {last t : ℚ} (ts : List ℚ) (h : t - last > DEDUP_THRESHOLD) :
    greedy last (t :: ts) = t :: greedy t ts := by
  simp only [greedy]
  rw [if_pos h]

theorem greedy_neg {last t : ℚ} (ts : List ℚ) (h : ¬ t - last > DEDUP_THRESHOLD) :
    greedy last (t :: ts) = greedy last ts := by
  simp only [greedy]
  rw [if_neg h]

/-- On a run of reads of one single tag, the forwarded times are computed by
the plain greedy recursion seeded with the cache entry for that tag. -/
theorem forwarded_single_tag (ts : List ℚ) :
    ∀ (cache : TagId → ℚ) (tag : TagId),
      forwardedTimes cache (ts.map fun t => (tag, t)) tag = greedy (cache tag) ts := by
  induction ts with
  | nil => intro cache tag; rfl
  | cons t ts ih =>
    intro cache tag
    simp only [List.map_cons]
    rw [forwardedTimes_cons]
    by_cases hc : t - cache tag > DEDUP_THRESHOLD
    · rw [dedupStep_pos (by simpa using hc)]
      simp only [if_true, if_pos rfl]
      rw [greedy_pos ts hc, ih]
      simp
    · rw [dedupStep_neg (by simpa using hc)]
      simp only [if_neg (Bool.false_ne_true)]
      rw [greedy_neg ts hc, ih]

/-- C7 counterexample: 13 reads of tag 0001 at 1-second intervals spanning
12 seconds and starting at t=0 are forwarded exactly twice, at t=6 and
t=12, not three times: at t=0 the filter computes 0 - 0 > 5.0, which is
false, so the first read is suppressed. -/
theorem trace13_counterexample :
    forwardedTimes emptyCache (trace13 [48, 48, 48, 49] 0) [48, 48, 48, 49]
      = [6, 12] ∧
    (forwardedTimes emptyCache (trace13 [48, 48, 48, 49] 0) [48, 48, 48, 49]).length
      ≠ 3 := by
  have h : forwardedTimes emptyCache (trace13 [48, 48, 48, 49] 0) [48, 48, 48, 49]
      = [6, 12] := by
    norm_num [forwardedTimes, processTrace, trace13, dedupStep, emptyCache,
      DEDUP_THRESHOLD, List.filterMap_cons]
  refine ⟨h, ?_⟩
  rw [h]
  decide

/-- C7 amended: a run of 13 reads of one tag at 1-second intervals over a
12-second span, starting at any time s with s > DEDUP_THRESHOLD (as any
wall-clock time is), yields exactly 3 forwarded reads, at s, s+6 and s+12;
a run starting exactly at the epoch t=0 yields only the two at 6 and 12. -/
theorem trace13_three_forwards (s : ℚ) (hs : DEDUP_THRESHOLD < s) :
    forwardedTimes emptyCache (trace13 [48, 48, 48, 49] s) [48, 48, 48, 49]
      = [s, s + 6, s + 12] := by
  have hmap : trace13 [48, 48, 48, 49] s
      = [s, s + 1, s + 2, s + 3, s + 4, s + 5, s + 6, s + 7, s + 8, s + 9,
         s + 10, s + 11, s + 12].map (fun t => ([48, 48, 48, 49], t)) := rfl
  rw [hmap, forwarded_single_tag]
  have h0 : emptyCache [48, 48, 48, 49] = 0 := rfl
  rw [h0]
  rw [greedy_pos _ (by simpa using hs)]
  rw [greedy_neg _ (by simp only [DEDUP_THRESHOLD]; intro h; linarith)]
  rw [greedy_neg _ (by simp only [DEDUP_THRESHOLD]; intro h; linarith)]
  rw [greedy_neg _ (by simp only [DEDUP_THRESHOLD]; intro h; linarith)]
  rw [greedy_neg _ (by simp only [DEDUP_THRESHOLD]; intro h; linarith)]
  rw [greedy_neg _ (by simp only [DEDUP_THRESHOLD]; intro h; linarith)]
  rw [greedy_pos _ (by simp only [DEDUP_THRESHOLD]; linarith)]
  rw [greedy_neg _ (by simp only [DEDUP_THRESHOLD]; intro h; linarith)]
  rw [greedy_neg _ (by simp only [DEDUP_THRESHOLD]; intro h; linarith)]
  rw [greedy_neg _ (by simp only [DEDUP_THRESHOLD]; intro h; linarith)]
  rw [greedy_neg _ (by simp only [DEDUP_THRESHOLD]; intro h; linarith)]
  rw [greedy_neg _ (by simp only [DEDUP_THRESHOLD]; intro h; linarith)]
  rw [greedy_pos _ (by simp only [DEDUP_THRESHOLD]; linarith)]
  rfl

/-- Witness for C7 amended at s = 6. -/
theorem trace13_three_forwards_witness :
    DEDUP_THRESHOLD < (6 : ℚ) ∧
    forwardedTimes emptyCache (trace13 [48, 48, 48, 49] 6) [48, 48, 48, 49]
      = [6, 6 + 6, 6 + 12] :=
  ⟨by norm_num [DEDUP_THRESHOLD],
   trace13_three_forwards 6 (by norm_num [DEDUP_THRESHOLD])⟩

/-- C5: for every even-length string of hexadecimal digits, the decoder
succeeds and produces exactly half as many characters, each hex pair
interpreted as one byte appended in order, and re-encoding the output to
hex equals the input up to letter case. -/
theorem decode_roundtrip (H : List Nat) (heven : H.length % 2 = 0)
    (hhex : H.all isHexDigit = true) :
    ∃ t, decode H = some t ∧ t.length = H.length / 2 ∧
      encodeHex t = H.map toUpperHexChar :=
  decode_hex_even H heven hhex

/-- Witness for C5 on the input 01af. -/
theorem decode_roundtrip_witness :
    ([48, 49, 97, 102] : List Nat).length % 2 = 0 ∧
    ([48, 49, 97, 102] : List Nat).all isHexDigit = true ∧
    ∃ t, decode [48, 49, 97, 102] = some t ∧
      t.length = ([48, 49, 97, 102] : List Nat).length / 2 ∧
      encodeHex t = ([48, 49, 97, 102] : List Nat).map toUpperHexChar :=
  ⟨by decide, by decide, decode_roundtrip [48, 49, 97, 102] (by decide) (by decide)⟩

theorem hardBad_props {n : Nat} (h : hardBad n = true) :
    isHexDigit n = false ∧ isPySpace n = false ∧ n ≠ 43 ∧ n ≠ 45 := by
  simp only [hardBad, Bool.not_eq_true', Bool.or_eq_false_iff,
    beq_eq_false_iff_ne, ne_eq] at h
  exact ⟨h.1.1.1, h.1.1.2, h.1.2, h.2⟩

theorem pyIntSigned_single_bad {c : Nat} (hhex : isHexDigit c = false) :
    pyIntSigned [c] = none := by
  simp [pyIntSigned, hexDigitsVal, hhex]

theorem pyIntSigned_pair_nohex {c1 c2 : Nat} (h43 : c1 ≠ 43) (h45 : c1 ≠ 45)
    (h : isHexDigit c1 = false ∨ isHexDigit c2 = false) :
    pyIntSigned [c1, c2] = none := by
  rcases h with h | h <;>
    simp [pyIntSigned, if_neg h43, if_neg h45, hexDigitsVal, h]

/-- A two-character chunk holding a character no int(ch, 16) form accepts is
rejected whole. -/
theorem pyInt16_pair_bad {c1 c2 : Nat}
    (h : hardBad c1 = true ∨ hardBad c2 = true) :
    pyInt16 [c1, c2] = none := by
  rcases h with h | h
  · obtain ⟨hhex, hsp, h43, h45⟩ := hardBad_props h
    by_cases hs2 : isPySpace c2 = true
    · have hstrip :
          ((([c1, c2].dropWhile isPySpace).reverse.dropWhile isPySpace).reverse)
            = [c1] := by
        simp [List.dropWhile_cons, hsp, hs2]
      show pyIntSigned _ = none
      rw [hstrip]
      exact pyIntSigned_single_bad hhex
    · have hs2f : isPySpace c2 = false := by
        revert hs2
        cases isPySpace c2 <;> simp
      have hstrip :
          ((([c1, c2].dropWhile isPySpace).reverse.dropWhile isPySpace).reverse)
            = [c1, c2] := by
        simp [List.dropWhile_cons, hsp, hs2f]
      show pyIntSigned _ = none
      rw [hstrip]
      exact pyIntSigned_pair_nohex h43 h45 (Or.inl hhex)
  · obtain ⟨hhex, hsp, h432, h452⟩ := hardBad_props h
    by_cases hs1 : isPySpace c1 = true
    · have hstrip :
          ((([c1, c2].dropWhile isPySpace).reverse.dropWhile isPySpace).reverse)
            = [c2] := by
        simp [List.dropWhile_cons, hs1, hsp]
      show pyIntSigned _ = none
      rw [hstrip]
      exact pyIntSigned_single_bad hhex
    · have hs1f : isPySpace c1 = false := by
        revert hs1
        cases isPySpace c1 <;> simp
      have hstrip :
          ((([c1, c2].dropWhile isPySpace).reverse.dropWhile isPySpace).reverse)
            = [c1, c2] := by
        simp [List.dropWhile_cons, hs1f, hsp]
      show pyIntSigned _ = none
      rw [hstrip]
      by_cases h431 : c1 = 43
      · simp [pyIntSigned, h431, hexDigitsVal, hhex]
      · by_cases h451 : c1 = 45
        · simp [pyIntSigned, h451, hexDigitsVal, hhex]
        · exact pyIntSigned_pair_nohex h431 h451 (Or.inr hhex)

/-- A one-character chunk holding such a character is rejected as well. -/
theorem pyInt16_single_bad {c : Nat} (h : hardBad c = true) :
    pyInt16 [c] = none := by
  obtain ⟨hhex, hsp, h43, h45⟩ := hardBad_props h
  have hstrip :
      ((([c].dropWhile isPySpace).reverse.dropWhile isPySpace).reverse)
        = [c] := by
    simp [List.dropWhile_cons, hsp]
  show pyIntSigned _ = none
  rw [hstrip]
  exact pyIntSigned_single_bad hhex

/-- Anywhere a character no chunk can accept occurs, the whole decode
raises. -/
theorem decode_hardBad (epc : List Nat) :
    ∀ c, c ∈ epc → hardBad c = true → decode epc = none := by
  induction epc using chunk2.induct with
  | case1 =>
    intro c hc
    simp at hc
  | case2 c0 =>
    intro c hc hbad
    rw [List.mem_singleton] at hc
    subst hc
    rw [decode_single, pyByte, pyInt16_single_bad hbad]
    rfl
  | case3 c1 c2 rest ih =>
    intro c hc hbad
    rw [decode_cons2]
    rcases List.mem_cons.mp hc with h | h
    · subst h
      rw [pyByte, pyInt16_pair_bad (Or.inl hbad)]
      rfl
    rcases List.mem_cons.mp h with h2 | h2
    · subst h2
      rw [pyByte, pyInt16_pair_bad (Or.inr hbad)]
      rfl
    · rw [ih c h2 hbad]
      cases pyByte [c1, c2] <;> rfl

/-- On an even-length hex prefix followed by one dangling hex digit, the
decoder does not fail: the lone digit is decoded as its own byte value. -/
theorem decode_odd_tail (H : List Nat) (heven : H.length % 2 = 0)
    (hhex : H.all isHexDigit = true) :
    ∀ d, isHexDigit d = true →
      decode (H ++ [d]) = (decode H).map fun t => t ++ [hexVal d] := by
  induction H using chunk2.induct with
  | case1 =>
    intro d hd
    rw [List.nil_append, decode_single, pyByte_single hd, decode_nil]
    rfl
  | case2 c0 =>
    simp at heven
  | case3 c1 c2 rest ih =>
    intro d hd
    simp only [List.all_cons, Bool.and_eq_true] at hhex
    obtain ⟨h1, h2, hrest⟩ := hhex
    simp only [List.length_cons] at heven
    simp only [List.cons_append]
    rw [decode_cons2, decode_cons2, pyByte_pair h1 h2, Option.some_bind,
      Option.some_bind, ih (by omega) hrest d hd]
    cases decode rest <;> rfl

/-- C6 counterexample: on the odd-length hexadecimal input ABC the decoder
does not fail at all: it silently produces the two bytes 0xAB and 0x0C,
the dangling digit C read as its own byte, so the claim that odd-length
input fails with a DecodeError is wrong. -/
theorem decode_odd_length_counterexample :
    decode [65, 66, 67] ≠ none ∧ decode [65, 66, 67] = some [171, 12] := by
  refine ⟨by decide, by decide⟩

/-- C6 amended: on input containing a character that no chunk of
int(ch, 16) accepts (not a hex digit, a sign, or whitespace) the decoder
fails with an uncaught error rather than truncating; but an odd-length
hexadecimal input does not fail: the dangling final digit is silently
decoded as its own byte value. -/
theorem decode_malformed_amended :
    (∀ epc c, c ∈ epc → hardBad c = true → decode epc = none) ∧
    (∀ H d, H.length % 2 = 0 → H.all isHexDigit = true → isHexDigit d = true →
      decode (H ++ [d]) = (decode H).map fun t => t ++ [hexVal d]) :=
  ⟨fun epc c hc hbad => decode_hardBad epc c hc hbad,
   fun H d heven hhex hd => decode_odd_tail H heven hhex d hd⟩

/-- Witness for C6 amended: 0G fails on the non-hex G; 01C decodes to the
decode of 01 with the byte 0x0C appended. -/
theorem decode_malformed_amended_witness :
    ((71 : Nat) ∈ ([48, 71] : List Nat) ∧ hardBad 71 = true ∧
      decode [48, 71] = none) ∧
    (([48, 49] : List Nat).length % 2 = 0 ∧
      ([48, 49] : List Nat).all isHexDigit = true ∧ isHexDigit 67 = true ∧
      decode ([48, 49] ++ [67]) = (decode [48, 49]).map fun t => t ++ [hexVal 67]) :=
  ⟨⟨by decide, by decide,
    decode_malformed_amended.1 [48, 71] 71 (by decide) (by decide)⟩,
   ⟨by decide, by decide, by decide,
    decode_malformed_amended.2 [48, 49] 67 (by decide) (by decide) (by decide)⟩⟩

end Rfid
